import Mathlib

/-!
Verification development for the Leopard interpreter.

The definitions below are a shallow embedding of the Go sources:
the `token` package (src/unnamed/part_001), the `ast` package
(src/unnamed/part_000), the `object` package (src/object/object.go,
both the object model and the Environment), and the REPL line loop
(src/repl/repl.go).  Go `int64` values are embedded as `Int`,
`uint64` values as `Nat` kept below `2 ^ 64`, Go maps as association
lists in iteration order, and nil-able pointers as `Option`.
-/

set_option maxHeartbeats 1000000

namespace Leopard

/-- Embeds `token.Token`: a lexical token with a type tag and its literal
text (src/unnamed/part_001). -/
structure Token where
  type : String
  literal : String
deriving DecidableEq

/-- Embeds `ast.Identifier`: a variable identifier node, carrying its token
and its name (src/unnamed/part_000, lines 62-66). -/
structure Identifier where
  token : Token
  value : String
deriving DecidableEq

/-- Embeds `(i *Identifier) String()`, which returns the value of the identifier (src/unnamed/part_000, line 144). -/
def Identifier.string (i : Identifier) : String := i.value

mutual

/-- Embeds the expression variants of the `ast` package
(src/unnamed/part_000).  `HashLiteral.Pairs` is a Go
`map[Expression]Expression`; it is embedded as the association list of its
pairs in one iteration order. -/
inductive Expr where
  | ident (i : Identifier)
  | integerLiteral (token : Token) (value : Int)
  | prefixExpr (token : Token) (operator : String) (right : Expr)
  | infixExpr (token : Token) (left : Expr) (operator : String) (right : Expr)
  | boolean (token : Token) (value : Bool)
  | ifExpr (token : Token) (condition : Expr) (consequence : Block)
      (alternative : Option Block)
  | functionLiteral (token : Token) (parameters : List Identifier) (body : Block)
  | callExpr (token : Token) (function : Expr) (arguments : List Expr)
  | stringLiteral (token : Token) (value : String)
  | arrayLiteral (token : Token) (elements : List Expr)
  | indexExpr (token : Token) (left : Expr) (index : Expr)
  | hashLiteral (token : Token) (pairs : List (Expr × Expr))

/-- Embeds the non-block statement variants of the `ast` package:
`LetStatement`, `ReturnStatement`, `ExpressionStatement`
(src/unnamed/part_000).  Nil-able expression fields are `Option`. -/
inductive Stmt where
  | letStmt (token : Token) (name : Identifier) (value : Option Expr)
  | returnStmt (token : Token) (returnValue : Option Expr)
  | exprStmt (token : Token) (expression : Option Expr)

/-- Embeds `ast.BlockStatement`: a brace-delimited list of statements
(src/unnamed/part_000, lines 239-243). -/
inductive Block where
  | mk (token : Token) (statements : List Stmt)

end

mutual

/-- Embeds the `String()` methods of the `ast` expression variants
(src/unnamed/part_000): `Identifier`, `IntegerLiteral`, `PrefixExpression`,
`InfixExpression`, `Boolean`, `IfExpression`, `FunctionLiteral`,
`CallExpression`, `StringLiteral`, `ArrayLiteral`, `IndexExpression`,
`HashLiteral`.  `strings.Join(xs, sep)` is `String.intercalate sep xs`;
literal braces are written with `\x7b` and `\x7d` escapes. -/
def Expr.string : Expr → String
  | .ident i => i.value
  | .integerLiteral tok _ => tok.literal
  | .prefixExpr _ op right => "(" ++ op ++ right.string ++ ")"
  | .infixExpr _ left op right =>
      "(" ++ left.string ++ " " ++ op ++ " " ++ right.string ++ ")"
  | .boolean tok _ => tok.literal
  | .ifExpr _ cond cons none => "if" ++ cond.string ++ " " ++ cons.string
  | .ifExpr _ cond cons (some alt) =>
      "if" ++ cond.string ++ " " ++ cons.string ++ "else" ++ alt.string
  | .functionLiteral tok params body =>
      tok.literal ++ "(" ++ String.intercalate ", " (params.map Identifier.string)
        ++ ") " ++ body.string
  | .callExpr _ fn args =>
      fn.string ++ "(" ++ String.intercalate ", " (Expr.stringList args) ++ ")"
  | .stringLiteral tok _ => tok.literal
  | .arrayLiteral _ elems =>
      "[" ++ String.intercalate ", " (Expr.stringList elems) ++ "]"
  | .indexExpr _ left index => "(" ++ left.string ++ "[" ++ index.string ++ "])"
  | .hashLiteral _ pairs =>
      "\x7b" ++ String.intercalate ", " (Expr.stringPairs pairs) ++ "\x7d"

/-- Helper for `Expr.string`: the `String()` images of a list of
expressions, in order (the element-collection loops of `CallExpression`
and `ArrayLiteral`). -/
def Expr.stringList : List Expr → List String
  | [] => []
  | e :: rest => e.string :: Expr.stringList rest

/-- Helper for `Expr.string`: the rendered `key:value` strings of the pairs of a hash
literal, in iteration order (the range loop of `HashLiteral.String`,
src/unnamed/part_000, lines 380-383). -/
def Expr.stringPairs : List (Expr × Expr) → List String
  | [] => []
  | (k, v) :: rest => (k.string ++ ":" ++ v.string) :: Expr.stringPairs rest

/-- Embeds the `String()` methods of `LetStatement`, `ReturnStatement` and
`ExpressionStatement` (src/unnamed/part_000, lines 104-141). -/
def Stmt.string : Stmt → String
  | .letStmt tok name none => tok.literal ++ " " ++ name.string ++ " = " ++ ";"
  | .letStmt tok name (some v) =>
      tok.literal ++ " " ++ name.string ++ " = " ++ v.string ++ ";"
  | .returnStmt tok none => tok.literal ++ " " ++ ";"
  | .returnStmt tok (some v) => tok.literal ++ " " ++ v.string ++ ";"
  | .exprStmt _ none => ""
  | .exprStmt _ (some e) => e.string

/-- Helper for `Block.string`: the `String()` images of a list of
statements, in order. -/
def Stmt.stringList : List Stmt → List String
  | [] => []
  | s :: rest => s.string :: Stmt.stringList rest

/-- Embeds `(bs *BlockStatement) String()`: the concatenation of the
strings of the statements (src/unnamed/part_000, lines 248-256). -/
def Block.string : Block → String
  | .mk _ stmts => String.join (Stmt.stringList stmts)

end

/-- Embeds `ast.Program`: the list of top-level statements. -/
structure Program where
  statements : List Stmt

/-- Embeds `object.ObjectType` constant `INTEGER_OBJ`. -/
def INTEGER_OBJ : String := "INTEGER"

/-- Embeds `object.ObjectType` constant `BOOLEAN_OBJ`. -/
def BOOLEAN_OBJ : String := "BOOLEAN"

/-- Embeds `object.ObjectType` constant `NULL_OBJ`. -/
def NULL_OBJ : String := "NULL"

/-- Embeds `object.ObjectType` constant `RETURN_VALUE_OBJ`. -/
def RETURN_VALUE_OBJ : String := "RETURN_VALUE"

/-- Embeds `object.ObjectType` constant `ERROR_OBJ`. -/
def ERROR_OBJ : String := "ERROR"

/-- Embeds `object.ObjectType` constant `FUNCTION_OBJ`. -/
def FUNCTION_OBJ : String := "FUNCTION"

/-- Embeds `object.ObjectType` constant `STRING_OBJ`. -/
def STRING_OBJ : String := "STRING"

/-- Embeds `object.ObjectType` constant `BUILTIN_OBJ`. -/
def BUILTIN_OBJ : String := "BUILTIN"

/-- Embeds `object.ObjectType` constant `ARRAY_OBJ`. -/
def ARRAY_OBJ : String := "ARRAY"

/-- Embeds `object.ObjectType` constant `HASH_OBJ`. -/
def HASH_OBJ : String := "HASH"

/-- Embeds `object.HashKey`: a type tag together with a `uint64` value
(src/object/object.go, lines 154-158).  The `uint64` is a `Nat` kept
below `2 ^ 64` by the operations that build it. -/
structure HashKey where
  type : String
  value : Nat
deriving DecidableEq

mutual

/-- Embeds the `object.Object` variants (src/object/object.go).
`Integer.Value` is `int64`, embedded as `Int`; `Hash.Pairs` is
`map[HashKey]HashPair`, embedded as the association list of its entries
`(map key, pair.Key, pair.Value)` in one iteration order; the native
callable payload of `Builtin` has no observable structure here and is
dropped (its `Inspect` ignores it). -/
inductive Obj where
  | integer (value : Int)
  | boolean (value : Bool)
  | null
  | returnValue (value : Obj)
  | error (message : String)
  | function (parameters : List Identifier) (body : Block) (env : Environment)
  | string (value : String)
  | builtin
  | array (elements : List Obj)
  | hash (pairs : List (HashKey × Obj × Obj))

/-- Embeds `object.Environment`: a name-to-object store (a Go map,
embedded as an association list with unique names) plus an optional outer
environment (src/object/object.go, lines 231-235). -/
inductive Environment where
  | mk (store : List (String × Obj)) (outer : Option Environment)

end

mutual

/-- Embeds the `Inspect()` methods of the `object` package
(src/object/object.go): decimal integers (`fmt.Sprintf("%d", int64)` is
`toString : Int → String`), `%t` booleans, `"null"`, the wrapped value
for `ReturnValue`, `"ERROR: "` plus the message for `Error`, the
`fn(params) \x7b ... \x7d` form with newlines for `Function`, the raw
text for `String`, `"builtin function"` for `Builtin`, bracketed
comma-joined elements for `Array`, and brace-wrapped comma-joined
`key: value` pairs for `Hash`. -/
def Obj.inspect : Obj → String
  | .integer v => toString v
  | .boolean b => if b then "true" else "false"
  | .null => "null"
  | .returnValue v => v.inspect
  | .error msg => "ERROR: " ++ msg
  | .function params body _ =>
      "fn" ++ "(" ++ String.intercalate ", " (params.map Identifier.string)
        ++ ") \x7b\n" ++ body.string ++ "\n\x7d"
  | .string s => s
  | .builtin => "builtin function"
  | .array elems => "[" ++ String.intercalate ", " (Obj.inspectList elems) ++ "]"
  | .hash pairs =>
      "\x7b" ++ String.intercalate ", " (Obj.inspectPairs pairs) ++ "\x7d"

/-- Helper for `Obj.inspect`: the `Inspect()` images of a list of objects,
in order (the element loop of `Array.Inspect`, src/object/object.go,
lines 142-145). -/
def Obj.inspectList : List Obj → List String
  | [] => []
  | o :: rest => o.inspect :: Obj.inspectList rest

/-- Helper for `Obj.inspect`: the rendered `key: value` strings of the
entries of a hash, in iteration order (the range loop of `Hash.Inspect`,
src/object/object.go, lines 176-179). -/
def Obj.inspectPairs : List (HashKey × Obj × Obj) → List String
  | [] => []
  | (_, k, v) :: rest => (k.inspect ++ ": " ++ v.inspect) :: Obj.inspectPairs rest

end

/-- Embeds the `Type()` methods of the `object` package: the type tag of
each variant (src/object/object.go). -/
def Obj.type : Obj → String
  | .integer _ => INTEGER_OBJ
  | .boolean _ => BOOLEAN_OBJ
  | .null => NULL_OBJ
  | .returnValue _ => RETURN_VALUE_OBJ
  | .error _ => ERROR_OBJ
  | .function _ _ _ => FUNCTION_OBJ
  | .string _ => STRING_OBJ
  | .builtin => BUILTIN_OBJ
  | .array _ => ARRAY_OBJ
  | .hash _ => HASH_OBJ

/-- Embeds the FNV-1a 64-bit offset basis used by `fnv.New64a()` from the Go
`hash/fnv` package (the initial state of the hasher). -/
def fnvOffsetBasis64 : Nat := 14695981039346656037

/-- Embeds the FNV 64-bit prime used by the Go `hash/fnv` package. -/
def fnvPrime64 : Nat := 1099511628211

/-- Embeds one byte step of the Go `hash/fnv` 64-bit FNV-1a `Write`:
xor the byte into the state, then multiply by the prime in `uint64`
arithmetic. -/
def fnv64aStep (h b : Nat) : Nat := ((h ^^^ b) * fnvPrime64) % 2 ^ 64

/-- Embeds `fnv.New64a()` followed by `Write(bytes)` and `Sum64()` from
the Go `hash/fnv` package: fold the FNV-1a step over the bytes starting
from the offset basis. -/
def fnv64a (bytes : List Nat) : Nat := bytes.foldl fnv64aStep fnvOffsetBasis64

/-- Embeds the UTF-8 encoding of one character, as the Go string-to-`[]byte`
conversion produces it: one to four bytes depending on the code point. -/
def utf8EncodeChar (c : Char) : List Nat :=
  let n := c.toNat
  if n < 0x80 then [n]
  else if n < 0x800 then [0xC0 + n / 0x40, 0x80 + n % 0x40]
  else if n < 0x10000 then
    [0xE0 + n / 0x1000, 0x80 + n / 0x40 % 0x40, 0x80 + n % 0x40]
  else
    [0xF0 + n / 0x40000, 0x80 + n / 0x1000 % 0x40, 0x80 + n / 0x40 % 0x40,
      0x80 + n % 0x40]

/-- Embeds the Go `[]byte(s)` conversion: the UTF-8 bytes of the string. -/
def stringBytes (s : String) : List Nat :=
  s.data.foldr (fun c acc => utf8EncodeChar c ++ acc) []

/-- Embeds the `HashKey()` methods of the `object` package
(src/object/object.go, lines 193-215) together with the `Hashable`
type assertion: `Boolean` maps to its type tag with value 1 or 0,
`Integer` to its type tag with `uint64(i.Value)` (the twos-complement
bit pattern of the `int64`, i.e. the value modulo `2 ^ 64`), `String` to
its type tag with the 64-bit FNV-1a hash of its bytes; every other
variant does not implement `Hashable` and yields `none`. -/
def Obj.hashKey : Obj → Option HashKey
  | .boolean b => some ⟨BOOLEAN_OBJ, if b then 1 else 0⟩
  | .integer v => some ⟨INTEGER_OBJ, (v % (2 : Int) ^ 64).toNat⟩
  | .string s => some ⟨STRING_OBJ, fnv64a (stringBytes s)⟩
  | _ => none

/-- Embeds a read `s[name]` of a Go `map[string]Object` represented as an
association list with unique names: the value at the name, if present. -/
def storeGet : List (String × Obj) → String → Option Obj
  | [], _ => none
  | (k, w) :: rest, n => if k = n then some w else storeGet rest n

/-- Embeds an assignment `s[name] = val` of a Go `map[string]Object`
represented as an association list with unique names: replace the
binding if the name is present, otherwise append it. -/
def storeSet : List (String × Obj) → String → Obj → List (String × Obj)
  | [], n, v => [(n, v)]
  | (k, w) :: rest, n, v =>
      if k = n then (n, v) :: rest else (k, w) :: storeSet rest n v

/-- Projects the store component of an `Environment`. -/
def Environment.store : Environment → List (String × Obj)
  | .mk s _ => s

/-- Projects the outer component of an `Environment`. -/
def Environment.outer : Environment → Option Environment
  | .mk _ o => o

/-- Embeds `object.NewEnvironment()`: an empty store and no outer
environment (src/object/object.go, lines 226-229). -/
def newEnvironment : Environment := .mk [] none

/-- Embeds `object.NewEnclosedEnvironment(outer)`: a fresh empty
environment whose outer pointer is the given environment
(src/object/object.go, lines 219-223). -/
def newEnclosedEnvironment (outer : Environment) : Environment :=
  .mk [] (some outer)

/-- Embeds `(e *Environment) Get(name)` (src/object/object.go,
lines 238-244): read the current store; on a miss, recurse into the
outer environment when one exists. -/
def Environment.Get : Environment → String → Option Obj
  | .mk store outer, name =>
    match storeGet store name, outer with
    | some v, _ => some v
    | none, some o => o.Get name
    | none, none => none

/-- Embeds `(e *Environment) Set(name, val)` (src/object/object.go,
lines 247-250): assign into the current store and return `val`; the
updated environment stands for the in-place mutation. -/
def Environment.Set (e : Environment) (name : String) (val : Obj) :
    Obj × Environment :=
  (val, .mk (storeSet e.store name val) e.outer)

/-- Lists the scope chain of an environment from innermost to outermost,
following outer pointers (the recursion structure of `Get`). -/
def Environment.chain : Environment → List Environment
  | .mk store none => [.mk store none]
  | .mk store (some o) => .mk store (some o) :: o.chain

/-- Applies a sequence of `Set` operations to an environment, in order. -/
def Environment.applySets (e : Environment) (ops : List (String × Obj)) :
    Environment :=
  ops.foldl (fun acc p => (acc.Set p.1 p.2).2) e

/-- Embeds the result a parser run hands the REPL for one input line:
`p.ParseProgram()` together with `p.Errors()` (src/repl/repl.go,
lines 38-39). -/
structure ParsedLine where
  program : Program
  errors : List String

/-- Embeds the REPL prompt constant (src/repl/repl.go, line 19). -/
def PROMPT : String := ">> "

/-- Embeds `printParserErrors` (src/repl/repl.go, lines 53-58): the
header line followed by each message on its own tab-prefixed line. -/
def printParserErrors (errors : List String) : String :=
  "Parser errors:\n" ++ String.join (errors.map (fun msg => "\t" ++ msg ++ "\n"))

/-- Embeds one iteration of the REPL loop after a line has been read and
parsed (src/repl/repl.go, lines 38-48), abstracting over the evaluator
(`evaluator.Eval`, which may return nil — `none` — and may mutate the
environment): if the diagnostics list is non-empty, print it and keep the
environment; otherwise run the evaluator and print the `Inspect`
form of the result followed by a newline, or nothing when the result is
absent. -/
def replStep (evalFn : Program → Environment → Option Obj × Environment)
    (parsed : ParsedLine) (env : Environment) : String × Environment :=
  if parsed.errors.length ≠ 0 then
    (printParserErrors parsed.errors, env)
  else
    match evalFn parsed.program env with
    | (some evaluated, envAfter) => (evaluated.inspect ++ "\n", envAfter)
    | (none, envAfter) => ("", envAfter)

mutual

/-- Decides whether an expression contains no hash literal anywhere, so
that no `String()` call on it ever ranges over a Go map. -/
def Expr.hashLitFree : Expr → Bool
  | .ident _ => true
  | .integerLiteral _ _ => true
  | .prefixExpr _ _ right => Expr.hashLitFree right
  | .infixExpr _ left _ right => Expr.hashLitFree left && Expr.hashLitFree right
  | .boolean _ _ => true
  | .ifExpr _ cond cons none => Expr.hashLitFree cond && Block.hashLitFree cons
  | .ifExpr _ cond cons (some alt) =>
      Expr.hashLitFree cond && Block.hashLitFree cons && Block.hashLitFree alt
  | .functionLiteral _ _ body => Block.hashLitFree body
  | .callExpr _ fn args => Expr.hashLitFree fn && Expr.listHashLitFree args
  | .stringLiteral _ _ => true
  | .arrayLiteral _ elems => Expr.listHashLitFree elems
  | .indexExpr _ left index => Expr.hashLitFree left && Expr.hashLitFree index
  | .hashLiteral _ _ => false

/-- Decides whether every expression of a list is hash-literal-free. -/
def Expr.listHashLitFree : List Expr → Bool
  | [] => true
  | e :: rest => Expr.hashLitFree e && Expr.listHashLitFree rest

/-- Decides whether a statement contains no hash literal anywhere. -/
def Stmt.hashLitFree : Stmt → Bool
  | .letStmt _ _ none => true
  | .letStmt _ _ (some v) => Expr.hashLitFree v
  | .returnStmt _ none => true
  | .returnStmt _ (some v) => Expr.hashLitFree v
  | .exprStmt _ none => true
  | .exprStmt _ (some e) => Expr.hashLitFree e

/-- Decides whether every statement of a list is hash-literal-free. -/
def Stmt.listHashLitFree : List Stmt → Bool
  | [] => true
  | s :: rest => Stmt.hashLitFree s && Stmt.listHashLitFree rest

/-- Decides whether a block contains no hash literal anywhere. -/
def Block.hashLitFree : Block → Bool
  | .mk _ stmts => Stmt.listHashLitFree stmts

end

mutual

/-- Decides whether an object contains no Hash anywhere in the parts its
`Inspect` can print: no Hash sub-object, and no hash literal inside a
Function body (whose text `Function.Inspect` reproduces). -/
def Obj.hashFree : Obj → Bool
  | .integer _ => true
  | .boolean _ => true
  | .null => true
  | .returnValue v => Obj.hashFree v
  | .error _ => true
  | .function _ body _ => Block.hashLitFree body
  | .string _ => true
  | .builtin => true
  | .array elems => Obj.listHashFree elems
  | .hash _ => false

/-- Decides whether every object of a list is hash-free. -/
def Obj.listHashFree : List Obj → Bool
  | [] => true
  | o :: rest => Obj.hashFree o && Obj.listHashFree rest

end

mutual

/-- Relates two embeddings that observe the same unmodified Go runtime
value, with map iteration order left free at EVERY map: matching
constructors with equal scalar payloads and observation-related
children; at a `Hash` node the entry list of the second observation is a
permutation of an entrywise re-observation of the first, because each Go
`range` over the map enumerates fresh.  Function parameters are a slice
(fixed order); the captured environment is compared by `obsEnv`, which
frees its store order the same way. -/
def obsObj : Obj → Obj → Prop
  | .integer v₁, .integer v₂ => v₁ = v₂
  | .boolean b₁, .boolean b₂ => b₁ = b₂
  | .null, .null => True
  | .returnValue v₁, .returnValue v₂ => obsObj v₁ v₂
  | .error m₁, .error m₂ => m₁ = m₂
  | .function p₁ b₁ e₁, .function p₂ b₂ e₂ =>
      p₁ = p₂ ∧ obsBlock b₁ b₂ ∧ obsEnv e₁ e₂
  | .string s₁, .string s₂ => s₁ = s₂
  | .builtin, .builtin => True
  | .array es₁, .array es₂ => obsObjList es₁ es₂
  | .hash ps₁, .hash ps₂ => ∃ mid, obsHashPairs ps₁ mid ∧ List.Perm mid ps₂
  | _, _ => False
termination_by structural x _ => x

/-- Relates two observations of a list of objects, pointwise (a Go slice
has a fixed order). -/
def obsObjList : List Obj → List Obj → Prop
  | [], [] => True
  | o₁ :: r₁, o₂ :: r₂ => obsObj o₁ o₂ ∧ obsObjList r₁ r₂
  | _, _ => False
termination_by structural x _ => x

/-- Relates two entrywise observations of Hash entries: equal map keys,
observation-related key and value objects. -/
def obsHashPairs :
    List (HashKey × Obj × Obj) → List (HashKey × Obj × Obj) → Prop
  | [], [] => True
  | (k₁, a₁, b₁) :: r₁, (k₂, a₂, b₂) :: r₂ =>
      k₁ = k₂ ∧ obsObj a₁ a₂ ∧ obsObj b₁ b₂ ∧ obsHashPairs r₁ r₂
  | _, _ => False
termination_by structural x _ => x

/-- Relates two observations of the same environment: the store (a Go
map) is a permutation of an entrywise re-observation, and the outer
pointers are related. -/
def obsEnv : Environment → Environment → Prop
  | .mk s₁ o₁, .mk s₂ o₂ =>
      (∃ mid, obsStore s₁ mid ∧ List.Perm mid s₂) ∧ obsEnvOuter o₁ o₂
termination_by structural x _ => x

/-- Relates two observations of an optional outer environment. -/
def obsEnvOuter : Option Environment → Option Environment → Prop
  | none, none => True
  | some e₁, some e₂ => obsEnv e₁ e₂
  | _, _ => False
termination_by structural x _ => x

/-- Relates two entrywise observations of an environment store: equal
names, observation-related values. -/
def obsStore : List (String × Obj) → List (String × Obj) → Prop
  | [], [] => True
  | (n₁, v₁) :: r₁, (n₂, v₂) :: r₂ =>
      n₁ = n₂ ∧ obsObj v₁ v₂ ∧ obsStore r₁ r₂
  | _, _ => False
termination_by structural x _ => x

/-- Relates two embeddings that observe the same unmodified AST node,
with map iteration order left free at EVERY hash literal: matching
constructors with equal tokens and payloads and observation-related
children; at a `HashLiteral` the pair list of the second observation is
a permutation of a pairwise re-observation of the first. -/
def obsExpr : Expr → Expr → Prop
  | .ident i₁, .ident i₂ => i₁ = i₂
  | .integerLiteral t₁ v₁, .integerLiteral t₂ v₂ => t₁ = t₂ ∧ v₁ = v₂
  | .prefixExpr t₁ op₁ r₁, .prefixExpr t₂ op₂ r₂ =>
      t₁ = t₂ ∧ op₁ = op₂ ∧ obsExpr r₁ r₂
  | .infixExpr t₁ l₁ op₁ r₁, .infixExpr t₂ l₂ op₂ r₂ =>
      t₁ = t₂ ∧ op₁ = op₂ ∧ obsExpr l₁ l₂ ∧ obsExpr r₁ r₂
  | .boolean t₁ v₁, .boolean t₂ v₂ => t₁ = t₂ ∧ v₁ = v₂
  | .ifExpr t₁ c₁ q₁ none, .ifExpr t₂ c₂ q₂ none =>
      t₁ = t₂ ∧ obsExpr c₁ c₂ ∧ obsBlock q₁ q₂
  | .ifExpr t₁ c₁ q₁ (some a₁), .ifExpr t₂ c₂ q₂ (some a₂) =>
      t₁ = t₂ ∧ obsExpr c₁ c₂ ∧ obsBlock q₁ q₂ ∧ obsBlock a₁ a₂
  | .functionLiteral t₁ p₁ b₁, .functionLiteral t₂ p₂ b₂ =>
      t₁ = t₂ ∧ p₁ = p₂ ∧ obsBlock b₁ b₂
  | .callExpr t₁ f₁ a₁, .callExpr t₂ f₂ a₂ =>
      t₁ = t₂ ∧ obsExpr f₁ f₂ ∧ obsExprList a₁ a₂
  | .stringLiteral t₁ v₁, .stringLiteral t₂ v₂ => t₁ = t₂ ∧ v₁ = v₂
  | .arrayLiteral t₁ e₁, .arrayLiteral t₂ e₂ => t₁ = t₂ ∧ obsExprList e₁ e₂
  | .indexExpr t₁ l₁ i₁, .indexExpr t₂ l₂ i₂ =>
      t₁ = t₂ ∧ obsExpr l₁ l₂ ∧ obsExpr i₁ i₂
  | .hashLiteral t₁ ps₁, .hashLiteral t₂ ps₂ =>
      t₁ = t₂ ∧ ∃ mid, obsExprPairs ps₁ mid ∧ List.Perm mid ps₂
  | _, _ => False
termination_by structural x _ => x

/-- Relates two observations of a list of expressions, pointwise. -/
def obsExprList : List Expr → List Expr → Prop
  | [], [] => True
  | e₁ :: r₁, e₂ :: r₂ => obsExpr e₁ e₂ ∧ obsExprList r₁ r₂
  | _, _ => False
termination_by structural x _ => x

/-- Relates two pairwise observations of hash literal pairs. -/
def obsExprPairs : List (Expr × Expr) → List (Expr × Expr) → Prop
  | [], [] => True
  | (k₁, v₁) :: r₁, (k₂, v₂) :: r₂ =>
      obsExpr k₁ k₂ ∧ obsExpr v₁ v₂ ∧ obsExprPairs r₁ r₂
  | _, _ => False
termination_by structural x _ => x

/-- Relates two observations of the same statement. -/
def obsStmt : Stmt → Stmt → Prop
  | .letStmt t₁ n₁ none, .letStmt t₂ n₂ none => t₁ = t₂ ∧ n₁ = n₂
  | .letStmt t₁ n₁ (some v₁), .letStmt t₂ n₂ (some v₂) =>
      t₁ = t₂ ∧ n₁ = n₂ ∧ obsExpr v₁ v₂
  | .returnStmt t₁ none, .returnStmt t₂ none => t₁ = t₂
  | .returnStmt t₁ (some v₁), .returnStmt t₂ (some v₂) =>
      t₁ = t₂ ∧ obsExpr v₁ v₂
  | .exprStmt t₁ none, .exprStmt t₂ none => t₁ = t₂
  | .exprStmt t₁ (some e₁), .exprStmt t₂ (some e₂) => t₁ = t₂ ∧ obsExpr e₁ e₂
  | _, _ => False
termination_by structural x _ => x

/-- Relates two observations of a list of statements, pointwise. -/
def obsStmtList : List Stmt → List Stmt → Prop
  | [], [] => True
  | s₁ :: r₁, s₂ :: r₂ => obsStmt s₁ s₂ ∧ obsStmtList r₁ r₂
  | _, _ => False
termination_by structural x _ => x

/-- Relates two observations of the same block. -/
def obsBlock : Block → Block → Prop
  | .mk t₁ ss₁, .mk t₂ ss₂ => t₁ = t₂ ∧ obsStmtList ss₁ ss₂
termination_by structural x _ => x

end

/-- Reading a map after an assignment to the same name yields the assigned
value. -/
theorem storeGet_storeSet_self (s : List (String × Obj)) (n : String) (v : Obj) :
    storeGet (storeSet s n v) n = some v := by
  induction s with
  | nil => simp [storeGet, storeSet]
  | cons p rest ih =>
      obtain ⟨k, w⟩ := p
      by_cases hk : k = n
      · subst hk; simp [storeGet, storeSet]
      · simp [storeGet, storeSet, hk, ih]

/-- Reading a map after an assignment to a different name is unchanged. -/
theorem storeGet_storeSet_ne (s : List (String × Obj)) (n m : String) (v : Obj)
    (h : m ≠ n) : storeGet (storeSet s n v) m = storeGet s m := by
  induction s with
  | nil => simp [storeGet, storeSet, Ne.symm h]
  | cons p rest ih =>
      obtain ⟨k, w⟩ := p
      by_cases hk : k = n
      · subst hk; simp [storeGet, storeSet, Ne.symm h]
      · by_cases hm : k = m
        · subst hm; simp [storeGet, storeSet, hk]
        · simp [storeGet, storeSet, hk, hm, ih]

/-- An assignment never removes a present binding. -/
theorem storeGet_storeSet_isSome (s : List (String × Obj)) (n m : String)
    (v : Obj) (h : (storeGet s m).isSome) :
    (storeGet (storeSet s n v) m).isSome := by
  by_cases hm : m = n
  · subst hm; simp [storeGet_storeSet_self]
  · rwa [storeGet_storeSet_ne s n m v hm]

/-- Name lookup falls through to the outer environment when the current
store misses. -/
theorem Get_mk_of_storeGet_none {s : List (String × Obj)}
    {o : Option Environment} {m : String} (hs : storeGet s m = none) :
    (Environment.mk s o).Get m =
      match o with | some o0 => o0.Get m | none => none := by
  cases o with
  | none => exact Environment.Get.eq_3 m s hs
  | some o0 => exact Environment.Get.eq_2 m s o0 hs

/-- Induction over an environment along its outer chain, by strong
induction on size. -/
theorem Environment.inductionOuter {P : Environment → Prop}
    (step : ∀ s o, (∀ e, o = some e → P e) → P (.mk s o)) :
    ∀ e, P e := by
  have key : ∀ (n : Nat) (e : Environment), sizeOf e ≤ n → P e := by
    intro n
    induction n with
    | zero =>
        intro e he
        exfalso
        cases e with
        | mk s o => simp at he
    | succ n ih =>
        intro e he
        cases e with
        | mk s o =>
            apply step
            intro e0 ho
            subst ho
            simp at he
            exact ih e0 (by omega)
  exact fun e => key (sizeOf e) e le_rfl

/-- Name lookup through an environment equals the first successful store
lookup along the scope chain. -/
theorem get_eq_chain_findSome (e : Environment) (name : String) :
    e.Get name = e.chain.findSome? (fun env => storeGet env.store name) := by
  induction e using Environment.inductionOuter with
  | step s o ih =>
      cases o with
      | none =>
          cases hs : storeGet s name <;>
            simp [Environment.Get, Environment.chain, Environment.store,
              List.findSome?_cons, hs]
      | some o0 =>
          have iho := ih o0 rfl
          cases hs : storeGet s name <;>
            simp [Environment.Get, Environment.chain, Environment.store,
              List.findSome?_cons, hs, iho]

/-- Characterizes a successful `findSome?` as a decomposition of the list
at the first element the function accepts. -/
theorem findSome?_eq_some_iff {α β : Type} (f : α → Option β) :
    ∀ (l : List α) (b : β),
      l.findSome? f = some b ↔
        ∃ pre x post, l = pre ++ x :: post ∧ (∀ y ∈ pre, f y = none) ∧
          f x = some b := by
  intro l
  induction l with
  | nil =>
      intro b
      constructor
      · intro h; simp at h
      · rintro ⟨pre, x, post, hl, -, -⟩
        simp at hl
  | cons a l ih =>
      intro b
      rw [List.findSome?_cons]
      cases hfa : f a with
      | some c =>
          constructor
          · intro h
            exact ⟨[], a, l, by simp, by simp, hfa.trans h⟩
          · rintro ⟨pre, x, post, hl, hpre, hx⟩
            cases pre with
            | nil =>
                simp at hl
                obtain ⟨hax, -⟩ := hl
                subst hax
                rw [hfa] at hx
                exact hx
            | cons a0 pre0 =>
                rw [List.cons_append] at hl
                injection hl with h1 h2
                subst h1
                have hnone := hpre a (List.mem_cons_self a pre0)
                rw [hfa] at hnone
                exact (Option.some_ne_none c hnone).elim
      | none =>
          rw [ih b]
          constructor
          · rintro ⟨pre, x, post, hl, hpre, hx⟩
            refine ⟨a :: pre, x, post, by simp [hl], ?_, hx⟩
            intro y hy
            rcases List.mem_cons.mp hy with hy | hy
            · subst hy; exact hfa
            · exact hpre y hy
          · rintro ⟨pre, x, post, hl, hpre, hx⟩
            cases pre with
            | nil =>
                simp at hl
                obtain ⟨hax, -⟩ := hl
                subst hax
                rw [hfa] at hx
                exact (Option.some_ne_none b hx.symm).elim
            | cons a0 pre0 =>
                rw [List.cons_append] at hl
                injection hl with h1 h2
                subst h1
                exact ⟨pre0, x, post, h2,
                  fun y hy => hpre y (List.mem_cons_of_mem a hy), hx⟩

/-- Unfolds the object-list rendering helper to a `map`. -/
theorem inspectList_eq_map (es : List Obj) :
    Obj.inspectList es = es.map Obj.inspect := by
  induction es with
  | nil => rfl
  | cons o rest ih => simp [Obj.inspectList, ih]

/-- FNV-1a folding keeps the state below `2 ^ 64`. -/
theorem foldl_fnv64aStep_lt (bytes : List Nat) :
    ∀ h : Nat, h < 2 ^ 64 → List.foldl fnv64aStep h bytes < 2 ^ 64 := by
  induction bytes with
  | nil => intro h hh; simpa using hh
  | cons b rest ih =>
      intro h hh
      rw [List.foldl_cons]
      exact ih _ (Nat.mod_lt _ (by norm_num))

/-- Claim C1: HashKey derivation is exactly as specified and is a pure function
of the value of the object: a Boolean yields `(BOOLEAN, 1)` for true and
`(BOOLEAN, 0)` for false; an Integer yields `(INTEGER, bit pattern of the
signed 64-bit value reinterpreted as unsigned)`, characterized here as
the value itself when non-negative and the value plus `2 ^ 64` when
negative; a String yields `(STRING, 64-bit FNV-1a of its bytes)`, a value
below `2 ^ 64`; and equal objects produce identical HashKeys. -/
theorem hashKey_spec :
    (Obj.hashKey (.boolean true) = some ⟨BOOLEAN_OBJ, 1⟩ ∧
      Obj.hashKey (.boolean false) = some ⟨BOOLEAN_OBJ, 0⟩) ∧
    (∀ v : Int, -(2 ^ 63) ≤ v → v < 2 ^ 63 →
      Obj.hashKey (.integer v) =
        some ⟨INTEGER_OBJ, if 0 ≤ v then v.toNat else (v + 2 ^ 64).toNat⟩) ∧
    (∀ s : String,
      Obj.hashKey (.string s) = some ⟨STRING_OBJ, fnv64a (stringBytes s)⟩) ∧
    (∀ bytes : List Nat, fnv64a bytes < 2 ^ 64) ∧
    (∀ o₁ o₂ : Obj, o₁ = o₂ → Obj.hashKey o₁ = Obj.hashKey o₂) := by
  refine ⟨⟨rfl, rfl⟩, ?_, fun _ => rfl, ?_, fun o₁ o₂ h => h ▸ rfl⟩
  · intro v h1 h2
    have e64 : (2 : Int) ^ 64 = 18446744073709551616 := by norm_num
    have e63 : (2 : Int) ^ 63 = 9223372036854775808 := by norm_num
    rw [e63] at h1 h2
    simp only [Obj.hashKey, Option.some.injEq, HashKey.mk.injEq, e64, true_and]
    split <;> omega
  · intro bytes
    exact foldl_fnv64aStep_lt bytes fnvOffsetBasis64 (by norm_num [fnvOffsetBasis64])

/-- Claim C1 witness: the integer clause of `hashKey_spec` at the in-range value
`-1`, whose unsigned 64-bit pattern is `2 ^ 64 - 1`. -/
theorem hashKey_spec_witness :
    Obj.hashKey (.integer (-1)) =
      some ⟨INTEGER_OBJ, 18446744073709551615⟩ := by
  have h := hashKey_spec.2.1 (-1) (by norm_num) (by norm_num)
  rw [if_neg (by norm_num)] at h
  norm_num at h
  exact h

/-- Claim C2: `Environment.Get` searches the scope chain from innermost to
outermost: it returns `some v` exactly when the chain splits at an
environment whose store binds the name to `v` while every chain element
before it misses, and it returns `none` exactly when no environment in
the chain binds the name. -/
theorem environment_get_spec :
    ∀ (e : Environment) (name : String),
      (∀ v : Obj,
        e.Get name = some v ↔
          ∃ pre env post, e.chain = pre ++ env :: post ∧
            (∀ e0 ∈ pre, storeGet e0.store name = none) ∧
            storeGet env.store name = some v) ∧
      (e.Get name = none ↔
        ∀ env ∈ e.chain, storeGet env.store name = none) := by
  intro e name
  constructor
  · intro v
    rw [get_eq_chain_findSome]
    exact findSome?_eq_some_iff _ _ _
  · rw [get_eq_chain_findSome]
    exact List.findSome?_eq_none_iff

/-- Claim C3: `Environment.Set` binds only in the current scope and removes
nothing: it returns the assigned value, lookup of the assigned name then
yields that value, lookup of every other name is unchanged, the outer
environment is untouched, and no single `Set` nor any sequence of `Set`
operations removes a binding present in the store. -/
theorem environment_set_spec :
    (∀ (e : Environment) (n : String) (v : Obj), (e.Set n v).1 = v) ∧
    (∀ (e : Environment) (n : String) (v : Obj),
      (e.Set n v).2.Get n = some v) ∧
    (∀ (e : Environment) (n : String) (v : Obj) (m : String), m ≠ n →
      (e.Set n v).2.Get m = e.Get m) ∧
    (∀ (e : Environment) (n : String) (v : Obj),
      (e.Set n v).2.outer = e.outer) ∧
    (∀ (e : Environment) (n : String) (v : Obj) (m : String),
      (storeGet e.store m).isSome →
      (storeGet (e.Set n v).2.store m).isSome) ∧
    (∀ (e : Environment) (ops : List (String × Obj)) (m : String),
      (storeGet e.store m).isSome →
      (storeGet (e.applySets ops).store m).isSome) := by
  refine ⟨fun _ _ _ => rfl, ?_, ?_, fun _ _ _ => rfl, ?_, ?_⟩
  · intro e n v
    cases e with
    | mk s o =>
        simp [Environment.Set, Environment.store, Environment.outer,
          Environment.Get, storeGet_storeSet_self]
  · intro e n v m h
    cases e with
    | mk s o =>
        have hss := storeGet_storeSet_ne s n m v h
        show (Environment.mk (storeSet s n v) o).Get m =
          (Environment.mk s o).Get m
        cases hs : storeGet s m with
        | some w =>
            rw [hs] at hss
            rw [Environment.Get.eq_1 m (storeSet s n v) o w hss,
              Environment.Get.eq_1 m s o w hs]
        | none =>
            rw [hs] at hss
            rw [Get_mk_of_storeGet_none hss, Get_mk_of_storeGet_none hs]
  · intro e n v m h
    exact storeGet_storeSet_isSome _ _ _ _ h
  · intro e ops
    induction ops generalizing e with
    | nil => intro m h; exact h
    | cons p rest ih =>
        intro m h
        exact ih _ m (storeGet_storeSet_isSome _ _ _ _ h)

/-- Claim C3 witness: binding `x` leaves `y` alone, and a later `Set` of `z`
does not remove the binding of `x`. -/
theorem environment_set_spec_witness :
    ((newEnvironment.Set "x" (.integer 1)).2.Get "y" =
        newEnvironment.Get "y") ∧
    (storeGet ((newEnvironment.Set "x" (.integer 1)).2.applySets
        [("z", .integer 2)]).store "x").isSome := by
  constructor
  · exact environment_set_spec.2.2.1 newEnvironment "x" (.integer 1) "y"
      (by decide)
  · exact environment_set_spec.2.2.2.2.2 (newEnvironment.Set "x" (.integer 1)).2
      [("z", .integer 2)] "x" (by decide)

/-- Claim C4: the REPL line step prints the diagnostics and keeps the
environment when the parse produced errors — in that case its result does
not depend on the evaluator at all — and otherwise runs the evaluator and
prints the `Inspect` form of the result plus a newline, or nothing when the
evaluation result is absent. -/
theorem replStep_spec :
    (∀ (evalFn : Program → Environment → Option Obj × Environment)
        (parsed : ParsedLine) (env : Environment), parsed.errors ≠ [] →
      replStep evalFn parsed env = (printParserErrors parsed.errors, env)) ∧
    (∀ (evalFn evalFn2 : Program → Environment → Option Obj × Environment)
        (parsed : ParsedLine) (env : Environment), parsed.errors ≠ [] →
      replStep evalFn parsed env = replStep evalFn2 parsed env) ∧
    (∀ (evalFn : Program → Environment → Option Obj × Environment)
        (parsed : ParsedLine) (env : Environment) (v : Obj)
        (envAfter : Environment), parsed.errors = [] →
      evalFn parsed.program env = (some v, envAfter) →
      replStep evalFn parsed env = (v.inspect ++ "\n", envAfter)) ∧
    (∀ (evalFn : Program → Environment → Option Obj × Environment)
        (parsed : ParsedLine) (env : Environment) (envAfter : Environment),
      parsed.errors = [] →
      evalFn parsed.program env = (none, envAfter) →
      replStep evalFn parsed env = ("", envAfter)) := by
  have herr : ∀ l : List String, l ≠ [] → l.length ≠ 0 := by
    intro l h h0
    exact h (List.length_eq_zero.mp h0)
  refine ⟨?_, ?_, ?_, ?_⟩
  · intro evalFn parsed env h
    unfold replStep
    rw [if_pos (herr _ h)]
  · intro evalFn evalFn2 parsed env h
    unfold replStep
    rw [if_pos (herr _ h), if_pos (herr _ h)]
  · intro evalFn parsed env v envAfter h he
    unfold replStep
    rw [if_neg (by simp [h]), he]
  · intro evalFn parsed env envAfter h he
    unfold replStep
    rw [if_neg (by simp [h]), he]

/-- Claim C4 witness: the error branch of `replStep_spec` at a concrete parsed
line with one diagnostic. -/
theorem replStep_spec_witness :
    replStep (fun _ en => (none, en)) ⟨⟨[]⟩, ["boom"]⟩ newEnvironment =
      (printParserErrors ["boom"], newEnvironment) :=
  replStep_spec.1 _ _ _ (by decide)

/-- Claim C5: `Inspect` produces the canonical textual forms: integers in
decimal (non-negative values print as their digits, negative values as a
minus sign and digits), booleans as `true`/`false`, null as `null`,
strings verbatim, arrays as bracketed comma-joined element forms, and
errors as `ERROR: ` plus the message. -/
theorem inspect_scalar_array_spec :
    (∀ v : Int, Obj.inspect (.integer v) = toString v) ∧
    (∀ n : Nat, Obj.inspect (.integer (n : Int)) = Nat.repr n) ∧
    (∀ n : Nat,
      Obj.inspect (.integer (-((n : Int) + 1))) = "-" ++ Nat.repr (n + 1)) ∧
    Obj.inspect (.boolean true) = "true" ∧
    Obj.inspect (.boolean false) = "false" ∧
    Obj.inspect .null = "null" ∧
    (∀ s : String, Obj.inspect (.string s) = s) ∧
    (∀ msg : String, Obj.inspect (.error msg) = "ERROR: " ++ msg) ∧
    (∀ elems : List Obj,
      Obj.inspect (.array elems) =
        "[" ++ String.intercalate ", " (elems.map Obj.inspect) ++ "]") := by
  refine ⟨fun _ => rfl, fun _ => rfl, ?_, rfl, rfl, rfl, fun _ => rfl,
    fun _ => rfl, ?_⟩
  · intro n
    rw [← Int.negSucc_eq]
    rfl
  · intro elems
    simp [Obj.inspect, inspectList_eq_map]

/-- Claim C6: the AST `String` methods for operator expressions parenthesize
fully: a prefix expression renders as `(OP right)` and an infix
expression as `(left OP right)` with single spaces around the operator. -/
theorem ast_string_spec :
    (∀ (t : Token) (op : String) (r : Expr),
      Expr.string (.prefixExpr t op r) = "(" ++ op ++ r.string ++ ")") ∧
    (∀ (t : Token) (l : Expr) (op : String) (r : Expr),
      Expr.string (.infixExpr t l op r) =
        "(" ++ l.string ++ " " ++ op ++ " " ++ r.string ++ ")") :=
  ⟨fun _ _ _ => rfl, fun _ _ _ _ => rfl⟩

/-- Claim C7 counterexample: for the empty-parameter, empty-body function,
`Inspect` differs from the claimed concatenation
`fn(params) \x7b body \x7d` without newlines, because the code emits a
newline after the opening brace and before the closing brace. -/
theorem function_inspect_counterexample :
    Obj.inspect (.function [] (.mk ⟨"\x7b", "\x7b"⟩ []) newEnvironment) ≠
      "fn" ++ "(" ++ String.intercalate ", " (List.map Identifier.string [])
        ++ ")" ++ " " ++ "\x7b" ++ (Block.mk ⟨"\x7b", "\x7b"⟩ []).string
        ++ "\x7d" := by
  decide

/-- Claim C7 amended: for every Function object, `Inspect` returns `fn`, an
open parenthesis, the parameter names joined by `, `, a close
parenthesis, a space, an open brace, a NEWLINE, the reconstructed
text of the body, a NEWLINE, and a close brace. -/
theorem function_inspect_amended :
    ∀ (params : List Identifier) (body : Block) (env : Environment),
      Obj.inspect (.function params body env) =
        "fn" ++ "(" ++ String.intercalate ", " (params.map Identifier.string)
          ++ ") \x7b\n" ++ body.string ++ "\n\x7d" :=
  fun _ _ _ => rfl

/-- Claim C8 counterexample: two observations of one unmodified value can
render differently.  A two-pair Hash object prints its pairs in the map
iteration order of each invocation; the same already holds for a
NON-Hash object, an Array whose single element is a two-pair Hash
(`Array.Inspect` re-ranges the inner map on every call), and for an
array literal node containing a two-pair hash literal.  So formatting is
not stable under repetition. -/
theorem inspect_repetition_counterexample :
    (obsObj
        (.hash [(⟨INTEGER_OBJ, 1⟩, .integer 1, .integer 1),
                (⟨INTEGER_OBJ, 2⟩, .integer 2, .integer 2)])
        (.hash [(⟨INTEGER_OBJ, 2⟩, .integer 2, .integer 2),
                (⟨INTEGER_OBJ, 1⟩, .integer 1, .integer 1)]) ∧
      Obj.inspect (.hash [(⟨INTEGER_OBJ, 1⟩, .integer 1, .integer 1),
                          (⟨INTEGER_OBJ, 2⟩, .integer 2, .integer 2)]) ≠
        Obj.inspect (.hash [(⟨INTEGER_OBJ, 2⟩, .integer 2, .integer 2),
                            (⟨INTEGER_OBJ, 1⟩, .integer 1, .integer 1)])) ∧
    (obsObj
        (.array [.hash [(⟨INTEGER_OBJ, 1⟩, .integer 1, .integer 1),
                        (⟨INTEGER_OBJ, 2⟩, .integer 2, .integer 2)]])
        (.array [.hash [(⟨INTEGER_OBJ, 2⟩, .integer 2, .integer 2),
                        (⟨INTEGER_OBJ, 1⟩, .integer 1, .integer 1)]]) ∧
      Obj.inspect
          (.array [.hash [(⟨INTEGER_OBJ, 1⟩, .integer 1, .integer 1),
                          (⟨INTEGER_OBJ, 2⟩, .integer 2, .integer 2)]]) ≠
        Obj.inspect
          (.array [.hash [(⟨INTEGER_OBJ, 2⟩, .integer 2, .integer 2),
                          (⟨INTEGER_OBJ, 1⟩, .integer 1, .integer 1)]])) ∧
    (obsExpr
        (.arrayLiteral ⟨"[", "["⟩
          [.hashLiteral ⟨"\x7b", "\x7b"⟩
            [(.integerLiteral ⟨"INT", "1"⟩ 1, .integerLiteral ⟨"INT", "1"⟩ 1),
             (.integerLiteral ⟨"INT", "2"⟩ 2, .integerLiteral ⟨"INT", "2"⟩ 2)]])
        (.arrayLiteral ⟨"[", "["⟩
          [.hashLiteral ⟨"\x7b", "\x7b"⟩
            [(.integerLiteral ⟨"INT", "2"⟩ 2, .integerLiteral ⟨"INT", "2"⟩ 2),
             (.integerLiteral ⟨"INT", "1"⟩ 1, .integerLiteral ⟨"INT", "1"⟩ 1)]]) ∧
      Expr.string
          (.arrayLiteral ⟨"[", "["⟩
            [.hashLiteral ⟨"\x7b", "\x7b"⟩
              [(.integerLiteral ⟨"INT", "1"⟩ 1, .integerLiteral ⟨"INT", "1"⟩ 1),
               (.integerLiteral ⟨"INT", "2"⟩ 2, .integerLiteral ⟨"INT", "2"⟩ 2)]]) ≠
        Expr.string
          (.arrayLiteral ⟨"[", "["⟩
            [.hashLiteral ⟨"\x7b", "\x7b"⟩
              [(.integerLiteral ⟨"INT", "2"⟩ 2, .integerLiteral ⟨"INT", "2"⟩ 2),
               (.integerLiteral ⟨"INT", "1"⟩ 1,
                 .integerLiteral ⟨"INT", "1"⟩ 1)]])) := by
  refine ⟨⟨?_, by decide⟩, ⟨⟨?_, trivial⟩, by decide⟩, ⟨⟨rfl, ⟨rfl, ?_⟩, trivial⟩, by decide⟩⟩
  · exact ⟨[(⟨INTEGER_OBJ, 1⟩, .integer 1, .integer 1),
      (⟨INTEGER_OBJ, 2⟩, .integer 2, .integer 2)],
      ⟨rfl, rfl, rfl, rfl, rfl, rfl, trivial⟩, List.Perm.swap _ _ _⟩
  · exact ⟨[(⟨INTEGER_OBJ, 1⟩, .integer 1, .integer 1),
      (⟨INTEGER_OBJ, 2⟩, .integer 2, .integer 2)],
      ⟨rfl, rfl, rfl, rfl, rfl, rfl, trivial⟩, List.Perm.swap _ _ _⟩
  · exact ⟨[(.integerLiteral ⟨"INT", "1"⟩ 1, .integerLiteral ⟨"INT", "1"⟩ 1),
      (.integerLiteral ⟨"INT", "2"⟩ 2, .integerLiteral ⟨"INT", "2"⟩ 2)],
      ⟨⟨rfl, rfl⟩, ⟨rfl, rfl⟩, ⟨rfl, rfl⟩, ⟨rfl, rfl⟩, trivial⟩,
      List.Perm.swap _ _ _⟩

/-- Rendering is invariant across observations of the same value on the
hash-free fragment, for objects, expressions, statements and blocks
simultaneously, by strong induction on size. -/
theorem obs_hashFree_render_eq : ∀ N : Nat,
    (∀ o₁ : Obj, sizeOf o₁ ≤ N → ∀ o₂, obsObj o₁ o₂ →
      Obj.hashFree o₁ = true → Obj.inspect o₁ = Obj.inspect o₂) ∧
    (∀ l₁ : List Obj, sizeOf l₁ ≤ N → ∀ l₂, obsObjList l₁ l₂ →
      Obj.listHashFree l₁ = true → Obj.inspectList l₁ = Obj.inspectList l₂) ∧
    (∀ e₁ : Expr, sizeOf e₁ ≤ N → ∀ e₂, obsExpr e₁ e₂ →
      Expr.hashLitFree e₁ = true → Expr.string e₁ = Expr.string e₂) ∧
    (∀ l₁ : List Expr, sizeOf l₁ ≤ N → ∀ l₂, obsExprList l₁ l₂ →
      Expr.listHashLitFree l₁ = true →
      Expr.stringList l₁ = Expr.stringList l₂) ∧
    (∀ s₁ : Stmt, sizeOf s₁ ≤ N → ∀ s₂, obsStmt s₁ s₂ →
      Stmt.hashLitFree s₁ = true → Stmt.string s₁ = Stmt.string s₂) ∧
    (∀ l₁ : List Stmt, sizeOf l₁ ≤ N → ∀ l₂, obsStmtList l₁ l₂ →
      Stmt.listHashLitFree l₁ = true →
      Stmt.stringList l₁ = Stmt.stringList l₂) ∧
    (∀ b₁ : Block, sizeOf b₁ ≤ N → ∀ b₂, obsBlock b₁ b₂ →
      Block.hashLitFree b₁ = true → Block.string b₁ = Block.string b₂) := by
  intro N
  induction N with
  | zero =>
      refine ⟨?_, ?_, ?_, ?_, ?_, ?_, ?_⟩ <;>
        · intro x hsz
          exfalso
          cases x <;> simp at hsz
  | succ N ih =>
      obtain ⟨ihO, ihOL, ihE, ihEL, ihS, ihSL, ihB⟩ := ih
      refine ⟨?_, ?_, ?_, ?_, ?_, ?_, ?_⟩
      · intro o₁ hsz o₂ hobs hf
        cases o₁ with
        | integer v =>
            cases o₂ <;> try exact False.elim hobs
            exact congrArg (fun z => Obj.inspect (.integer z)) hobs
        | boolean b =>
            cases o₂ <;> try exact False.elim hobs
            exact congrArg (fun z => Obj.inspect (.boolean z)) hobs
        | null =>
            cases o₂ <;> try exact False.elim hobs
            rfl
        | returnValue v =>
            cases o₂ <;> try exact False.elim hobs
            rename_i v₂
            simp at hsz
            have h1 := ihO v (by omega) v₂ hobs hf
            simp only [Obj.inspect]
            exact h1
        | error m =>
            cases o₂ <;> try exact False.elim hobs
            exact congrArg (fun z => Obj.inspect (.error z)) hobs
        | function p b e =>
            cases o₂ <;> try exact False.elim hobs
            rename_i p₂ b₂ e₂
            obtain ⟨hp, hb, -⟩ := hobs
            subst hp
            simp at hsz
            have h1 := ihB b (by omega) b₂ hb hf
            simp only [Obj.inspect]
            rw [h1]
        | string s =>
            cases o₂ <;> try exact False.elim hobs
            exact congrArg (fun z => Obj.inspect (.string z)) hobs
        | builtin =>
            cases o₂ <;> try exact False.elim hobs
            rfl
        | array es =>
            cases o₂ <;> try exact False.elim hobs
            rename_i es₂
            simp at hsz
            have h1 := ihOL es (by omega) es₂ hobs hf
            simp only [Obj.inspect]
            rw [h1]
        | hash ps => exact Bool.noConfusion hf
      · intro l₁ hsz l₂ hobs hf
        cases l₁ with
        | nil =>
            cases l₂ with
            | nil => rfl
            | cons o₂ r₂ => exact False.elim hobs
        | cons o r =>
            cases l₂ with
            | nil => exact False.elim hobs
            | cons o₂ r₂ =>
                obtain ⟨h1, h2⟩ := hobs
                simp only [Obj.listHashFree, Bool.and_eq_true] at hf
                simp at hsz
                simp only [Obj.inspectList]
                rw [ihO o (by omega) o₂ h1 hf.1, ihOL r (by omega) r₂ h2 hf.2]
      · intro e₁ hsz e₂ hobs hf
        cases e₁ with
        | ident i =>
            cases e₂ <;> try exact False.elim hobs
            exact congrArg (fun z => Expr.string (.ident z)) hobs
        | integerLiteral t v =>
            cases e₂ <;> try exact False.elim hobs
            obtain ⟨ht, hv⟩ := hobs
            subst ht; subst hv; rfl
        | prefixExpr t op r =>
            cases e₂ <;> try exact False.elim hobs
            rename_i t₂ op₂ r₂
            obtain ⟨ht, hop, hr⟩ := hobs
            subst ht; subst hop
            simp at hsz
            have h1 := ihE r (by omega) r₂ hr hf
            simp only [Expr.string]
            rw [h1]
        | infixExpr t l op r =>
            cases e₂ <;> try exact False.elim hobs
            rename_i t₂ l₂ op₂ r₂
            obtain ⟨ht, hop, hl, hr⟩ := hobs
            subst ht; subst hop
            simp only [Expr.hashLitFree, Bool.and_eq_true] at hf
            simp at hsz
            have h1 := ihE l (by omega) l₂ hl hf.1
            have h2 := ihE r (by omega) r₂ hr hf.2
            simp only [Expr.string]
            rw [h1, h2]
        | boolean t v =>
            cases e₂ <;> try exact False.elim hobs
            obtain ⟨ht, hv⟩ := hobs
            subst ht; subst hv; rfl
        | ifExpr t c q alt =>
            cases alt with
            | none =>
                cases e₂ <;> try exact False.elim hobs
                rename_i t₂ c₂ q₂ alt₂
                cases alt₂ <;> try exact False.elim hobs
                obtain ⟨ht, hc, hq⟩ := hobs
                subst ht
                simp only [Expr.hashLitFree, Bool.and_eq_true] at hf
                simp at hsz
                have h1 := ihE c (by omega) c₂ hc hf.1
                have h2 := ihB q (by omega) q₂ hq hf.2
                simp only [Expr.string]
                rw [h1, h2]
            | some a =>
                cases e₂ <;> try exact False.elim hobs
                rename_i t₂ c₂ q₂ alt₂
                cases alt₂ <;> try exact False.elim hobs
                rename_i a₂
                obtain ⟨ht, hc, hq, ha⟩ := hobs
                subst ht
                simp only [Expr.hashLitFree, Bool.and_eq_true] at hf
                simp at hsz
                have h1 := ihE c (by omega) c₂ hc hf.1.1
                have h2 := ihB q (by omega) q₂ hq hf.1.2
                have h3 := ihB a (by omega) a₂ ha hf.2
                simp only [Expr.string]
                rw [h1, h2, h3]
        | functionLiteral t p b =>
            cases e₂ <;> try exact False.elim hobs
            rename_i t₂ p₂ b₂
            obtain ⟨ht, hp, hb⟩ := hobs
            subst ht; subst hp
            simp at hsz
            have h1 := ihB b (by omega) b₂ hb hf
            simp only [Expr.string]
            rw [h1]
        | callExpr t f a =>
            cases e₂ <;> try exact False.elim hobs
            rename_i t₂ f₂ a₂
            obtain ⟨ht, hfn, hargs⟩ := hobs
            subst ht
            simp only [Expr.hashLitFree, Bool.and_eq_true] at hf
            simp at hsz
            have h1 := ihE f (by omega) f₂ hfn hf.1
            have h2 := ihEL a (by omega) a₂ hargs hf.2
            simp only [Expr.string]
            rw [h1, h2]
        | stringLiteral t v =>
            cases e₂ <;> try exact False.elim hobs
            obtain ⟨ht, hv⟩ := hobs
            subst ht; subst hv; rfl
        | arrayLiteral t es =>
            cases e₂ <;> try exact False.elim hobs
            rename_i t₂ es₂
            obtain ⟨ht, hl⟩ := hobs
            subst ht
            simp at hsz
            have h1 := ihEL es (by omega) es₂ hl hf
            simp only [Expr.string]
            rw [h1]
        | indexExpr t l i =>
            cases e₂ <;> try exact False.elim hobs
            rename_i t₂ l₂ i₂
            obtain ⟨ht, hl, hi⟩ := hobs
            subst ht
            simp only [Expr.hashLitFree, Bool.and_eq_true] at hf
            simp at hsz
            have h1 := ihE l (by omega) l₂ hl hf.1
            have h2 := ihE i (by omega) i₂ hi hf.2
            simp only [Expr.string]
            rw [h1, h2]
        | hashLiteral t ps => exact Bool.noConfusion hf
      · intro l₁ hsz l₂ hobs hf
        cases l₁ with
        | nil =>
            cases l₂ with
            | nil => rfl
            | cons e₂ r₂ => exact False.elim hobs
        | cons e r =>
            cases l₂ with
            | nil => exact False.elim hobs
            | cons e₂ r₂ =>
                obtain ⟨h1, h2⟩ := hobs
                simp only [Expr.listHashLitFree, Bool.and_eq_true] at hf
                simp at hsz
                simp only [Expr.stringList]
                rw [ihE e (by omega) e₂ h1 hf.1, ihEL r (by omega) r₂ h2 hf.2]
      · intro s₁ hsz s₂ hobs hf
        cases s₁ with
        | letStmt t n val =>
            cases val with
            | none =>
                cases s₂ <;> try exact False.elim hobs
                rename_i t₂ n₂ val₂
                cases val₂ <;> try exact False.elim hobs
                obtain ⟨ht, hn⟩ := hobs
                subst ht; subst hn; rfl
            | some v =>
                cases s₂ <;> try exact False.elim hobs
                rename_i t₂ n₂ val₂
                cases val₂ <;> try exact False.elim hobs
                rename_i v₂
                obtain ⟨ht, hn, hv⟩ := hobs
                subst ht; subst hn
                simp at hsz
                have h1 := ihE v (by omega) v₂ hv hf
                simp only [Stmt.string]
                rw [h1]
        | returnStmt t val =>
            cases val with
            | none =>
                cases s₂ <;> try exact False.elim hobs
                rename_i t₂ val₂
                cases val₂ <;> try exact False.elim hobs
                have ht : t = t₂ := hobs
                subst ht; rfl
            | some v =>
                cases s₂ <;> try exact False.elim hobs
                rename_i t₂ val₂
                cases val₂ <;> try exact False.elim hobs
                rename_i v₂
                obtain ⟨ht, hv⟩ := hobs
                subst ht
                simp at hsz
                have h1 := ihE v (by omega) v₂ hv hf
                simp only [Stmt.string]
                rw [h1]
        | exprStmt t val =>
            cases val with
            | none =>
                cases s₂ <;> try exact False.elim hobs
                rename_i t₂ val₂
                cases val₂ <;> try exact False.elim hobs
                rfl
            | some v =>
                cases s₂ <;> try exact False.elim hobs
                rename_i t₂ val₂
                cases val₂ <;> try exact False.elim hobs
                rename_i v₂
                obtain ⟨ht, hv⟩ := hobs
                simp at hsz
                have h1 := ihE v (by omega) v₂ hv hf
                simp only [Stmt.string]
                exact h1
      · intro l₁ hsz l₂ hobs hf
        cases l₁ with
        | nil =>
            cases l₂ with
            | nil => rfl
            | cons s₂ r₂ => exact False.elim hobs
        | cons s r =>
            cases l₂ with
            | nil => exact False.elim hobs
            | cons s₂ r₂ =>
                obtain ⟨h1, h2⟩ := hobs
                simp only [Stmt.listHashLitFree, Bool.and_eq_true] at hf
                simp at hsz
                simp only [Stmt.stringList]
                rw [ihS s (by omega) s₂ h1 hf.1, ihSL r (by omega) r₂ h2 hf.2]
      · intro b₁ hsz b₂ hobs hf
        cases b₁ with
        | mk t ss =>
            cases b₂ with
            | mk t₂ ss₂ =>
                obtain ⟨ht, hss⟩ := hobs
                simp at hsz
                have h1 := ihSL ss (by omega) ss₂ hss hf
                simp only [Block.string]
                rw [h1]

/-- Claim C8 amended: formatting is deterministic under repetition for
every Object containing no Hash anywhere in its printed parts (in
particular no hash literal inside a Function body) and for every AST
node containing no hash literal anywhere; as soon as a hash with at
least two pairs occurs at ANY depth — already for an Array holding a
two-pair Hash — two invocations may return different strings, because Go
map iteration order is not stable between invocations. -/
theorem inspect_repetition_amended :
    (∀ o₁ o₂ : Obj, obsObj o₁ o₂ → Obj.hashFree o₁ = true →
      Obj.inspect o₁ = Obj.inspect o₂) ∧
    (∀ e₁ e₂ : Expr, obsExpr e₁ e₂ → Expr.hashLitFree e₁ = true →
      Expr.string e₁ = Expr.string e₂) ∧
    (∀ s₁ s₂ : Stmt, obsStmt s₁ s₂ → Stmt.hashLitFree s₁ = true →
      Stmt.string s₁ = Stmt.string s₂) ∧
    (∀ b₁ b₂ : Block, obsBlock b₁ b₂ → Block.hashLitFree b₁ = true →
      Block.string b₁ = Block.string b₂) :=
  ⟨fun o₁ o₂ h hf => (obs_hashFree_render_eq (sizeOf o₁)).1 o₁ le_rfl o₂ h hf,
   fun e₁ e₂ h hf =>
     (obs_hashFree_render_eq (sizeOf e₁)).2.2.1 e₁ le_rfl e₂ h hf,
   fun s₁ s₂ h hf =>
     (obs_hashFree_render_eq (sizeOf s₁)).2.2.2.2.1 s₁ le_rfl s₂ h hf,
   fun b₁ b₂ h hf =>
     (obs_hashFree_render_eq (sizeOf b₁)).2.2.2.2.2.2 b₁ le_rfl b₂ h hf⟩

/-- Claim C8 amended witness: the object clause of
`inspect_repetition_amended` at two distinct observations of one
hash-free Function value whose captured environment store is enumerated
in the two possible orders; both print the same string. -/
theorem inspect_repetition_amended_witness :
    Obj.inspect
        (.function [] (.mk ⟨"\x7b", "\x7b"⟩ [])
          (.mk [("a", .integer 1), ("b", .integer 2)] none)) =
      Obj.inspect
        (.function [] (.mk ⟨"\x7b", "\x7b"⟩ [])
          (.mk [("b", .integer 2), ("a", .integer 1)] none)) :=
  inspect_repetition_amended.1 _ _
    ⟨rfl, ⟨rfl, trivial⟩,
      ⟨⟨[("a", .integer 1), ("b", .integer 2)],
        ⟨rfl, rfl, rfl, rfl, trivial⟩, List.Perm.swap _ _ _⟩, trivial⟩⟩
    rfl

/-- Claim C9: HashKeys never collide across types: the Boolean, Integer and
String hash keys carry pairwise distinct type tags, so for any values of
different hashable variants the HashKeys are unequal. -/
theorem hashKey_type_separation :
    ∀ (b : Bool) (v : Int) (s : String),
      Obj.hashKey (.boolean b) ≠ Obj.hashKey (.integer v) ∧
      Obj.hashKey (.boolean b) ≠ Obj.hashKey (.string s) ∧
      Obj.hashKey (.integer v) ≠ Obj.hashKey (.string s) := by
  intro b v s
  refine ⟨fun h => ?_, fun h => ?_, fun h => ?_⟩ <;>
    · simp only [Obj.hashKey, Option.some.injEq, HashKey.mk.injEq] at h
      exact absurd h.1 (by decide)

/-- Claim C10: `Inspect` of a ReturnValue is exactly `Inspect` of the wrapped
object, so a ReturnValue reaching the top level prints like its inner
value. -/
theorem returnValue_inspect_spec :
    ∀ v : Obj, Obj.inspect (.returnValue v) = Obj.inspect v :=
  fun _ => rfl

end Leopard
